import Mathlib

/-!
# A verification development for the libhosty hosts-file library

This file gives a shallow embedding, in Lean 4, of the core of
`libhosty.go`: the `HostsFileLine` record, the document (a list of
records), and the mutation operations `AddHost`, `AddHostRaw`,
`RemoveRow`, the `Comment*`/`Uncomment*` family, the lookups and the
renderer.  Go integers are modelled as `Int`/`Nat`, `net.IP` values as
byte lists (`List Nat`, with the nil IP as `[]`), and operations that can
panic at runtime (out-of-range slice indexing) return `Option`, with
`none` standing for a panic.  Stateful methods take the current list of
records and return the updated list alongside the Go return values.
-/

namespace Libhosty

/-- Line-type constants from `libhosty.go`. -/
def UNKNOWN : Nat := 0

/-- `EMPTY` line type constant. -/
def EMPTY : Nat := 10

/-- `COMMENT` line type constant. -/
def COMMENT : Nat := 20

/-- `ADDRESS` line type constant. -/
def ADDRESS : Nat := 30

/-- `HostsFileLine` from `libhosty.go`.  `Address` is a `net.IP`, modelled
as a byte list where `[]` is the nil IP (the zero value of a Go slice). -/
structure HostsFileLine where
  LineNumber : Int := 0
  LineType : Nat := 0
  Address : List Nat := []
  Parts : List String := []
  Hostnames : List String := []
  Raw : String := ""
  Trimed : String := ""
  Comment : String := ""
  IsCommented : Bool := false
deriving Repr, DecidableEq

/-- The error values returned by the library.  `cannotParseIP` models the
`fmt.Errorf("Cannot parse IP address %s", ...)` values built inline in
`AddHost`/`AddHostRaw`.  Modelled from the spec: the named `Err*` values
(`ErrUnknown`, `ErrNotAnAddressLine`, `ErrAlredyCommentedLine`,
`ErrAlredyUncommentedLine`, `ErrAddressNotFound`, `ErrHostnameNotFound`)
are declared in a repository file that is not present under `src/`; the
spec's error taxonomy (§7) lists them as distinct named error values, so
they are modelled as distinct constructors. -/
inductive GoErr where
  | cannotParseIP (s : String)
  | errUnknown
  | errNotAnAddressLine
  | errAlredyCommentedLine
  | errAlredyUncommentedLine
  | errAddressNotFound
  | errHostnameNotFound
deriving Repr, DecidableEq

/-- The 12-byte v4-in-v6 embedding marker used by Go's `net` package: a
16-byte IP whose first 12 bytes are this list is an embedded IPv4
address. -/
def v4Marker : List Nat := [0, 0, 0, 0, 0, 0, 0, 0, 0, 0, 255, 255]

/-- `net.IP.Equal` from the Go standard library: equal when the byte
slices have equal length and content, or when one is the 4-byte and the
other the 16-byte v4-in-v6 form of the same IPv4 address.  In particular
two nil IPs (both `[]`) are equal. -/
def ipEqual (a b : List Nat) : Bool :=
  if a.length = b.length then a == b
  else if a.length = 4 ∧ b.length = 16 then
    (b.take 12 == v4Marker) && (b.drop 12 == a)
  else if a.length = 16 ∧ b.length = 4 then
    (a.take 12 == v4Marker) && (a.drop 12 == b)
  else false

/-- Splitting a character list at `'.'` separators (the behaviour of
`strings.Split(s, ".")` on the character level: the empty string yields
one empty field, and separators at the ends yield empty fields). -/
def splitOnDot : List Char → List (List Char)
  | [] => [[]]
  | c :: rest =>
    if c = '.' then [] :: splitOnDot rest
    else
      match splitOnDot rest with
      | h :: t => (c :: h) :: t
      | [] => [[c]]

/-- Numeric value of a decimal digit sequence (assumes digits only). -/
def digitsVal (f : List Char) : Nat :=
  f.foldl (fun acc c => acc * 10 + (c.toNat - 48)) 0

/-- One field of a dotted-quad IPv4 literal, per Go's parser: nonempty,
at most 3 characters, decimal digits only, no leading zero (unless the
field is exactly "0"), and value at most 255. -/
def validV4Field (f : List Char) : Bool :=
  decide (0 < f.length) && decide (f.length ≤ 3) &&
  f.all (fun c => c.isDigit) &&
  (decide (f.length = 1) || decide (f.headD '0' ≠ '0')) &&
  decide (digitsVal f ≤ 255)

/-- Models `net.ParseIP` from the Go standard library, restricted to
IPv4 dotted-quad literals; the general IPv6 grammar is not modelled, so
strings outside the dotted-quad grammar are mapped to the nil IP `[]`
(which is what Go returns for every invalid literal).  For a dotted quad
Go returns the 16-byte v4-in-v6 form. -/
def ParseIP (s : String) : List Nat :=
  match splitOnDot s.data with
  | [a, b, c, d] =>
    if validV4Field a && validV4Field b && validV4Field c && validV4Field d then
      v4Marker ++ [digitsVal a, digitsVal b, digitsVal c, digitsVal d]
    else []
  | _ => []

/-- Models `strings.ToLower` (agrees with Go on ASCII input). -/
def goToLower (s : String) : String := ⟨s.data.map Char.toLower⟩

/-- The record deletion performed inside `RemoveRow` (and reused by
`AddHost`'s detach step) for a non-negative index: delete the record at
`row` when `row < len`, otherwise leave the list unchanged. -/
def removeRowCore (lines : List HostsFileLine) (row : Nat) : List HostsFileLine :=
  if row < lines.length then lines.take row ++ lines.drop (row + 1) else lines

/-- `RemoveRow` from `libhosty.go`.  The guard is `row < len(...)`: an
index `≥ len` is a silent no-op, but a negative index passes the guard
and the slice expression `h.HostsFileLines[:row]` panics (`none`). -/
def RemoveRow (lines : List HostsFileLine) (row : Int) : Option (List HostsFileLine) :=
  if row < (lines.length : Int) then
    if 0 ≤ row then some (removeRowCore lines row.toNat) else none
  else some lines

/-- `LookupByHostname` from `libhosty.go`: scan records in order, and in
each record scan the hostname list; return the first record index whose
list contains the hostname, together with that record's `Address`.
`none` models the `"Hostname not found"` error return. -/
def LookupByHostname : List HostsFileLine → String → Option (Nat × List Nat)
  | [], _ => none
  | hfl :: rest, hostname =>
    if hfl.Hostnames.contains hostname then some (0, hfl.Address)
    else
      match LookupByHostname rest hostname with
      | some (i, a) => some (i + 1, a)
      | none => none

/-- `lineFormatter`.  Modelled from the spec: `lineFormatter` lives in a
repository file that is not present under `src/`; §4.2 of the spec gives
its contract, which this definition follows: `Empty` renders to the empty
string, an `Address` line renders as an optional `"# "` disabled marker,
the address text, a tab, the space-joined hostnames and an optional
trailing `"\t# "`-prefixed comment, and `Comment`/`Unknown` lines render
their stored raw text verbatim. -/
def lineFormatter (l : HostsFileLine) : String :=
  if l.LineType = EMPTY then ""
  else if l.LineType = ADDRESS then
    (if l.IsCommented then "# " else "") ++ ipToString l.Address ++ "\t"
      ++ String.intercalate " " l.Hostnames
      ++ (if l.Comment = "" then "" else "\t# " ++ l.Comment)
  else l.Raw
where
  /-- Textual form of an IP byte list (`net.IP.String` for the forms the
  model produces): a 16-byte v4-in-v6 IP renders as a dotted quad. -/
  ipToString (ip : List Nat) : String :=
    if ip.length = 16 ∧ ip.take 12 = v4Marker then
      String.intercalate "." ((ip.drop 12).map Nat.repr)
    else String.intercalate ":" (ip.map Nat.repr)

/-- `RenderHostsFile` from `libhosty.go`: format every record and join
with `"\n"` (`strings.Join`, which adds no trailing newline and yields
`""` on the empty document). -/
def RenderHostsFile (lines : List HostsFileLine) : String :=
  String.intercalate "\n" (lines.map lineFormatter)

/-- `AddHostRaw` from `libhosty.go`: parse the IP; on success append a
fresh `ADDRESS` record (no dedup, `Raw` left at its zero value) and
return its index and the record; on failure return `-1`, no record, and
the parse error, with the document untouched. -/
def AddHostRaw (lines : List HostsFileLine) (ipRaw fqdnRaw comment : String) :
    (Int × Option HostsFileLine × Option GoErr) × List HostsFileLine :=
  let hostname := goToLower fqdnRaw
  let ip := ParseIP ipRaw
  if ip ≠ [] then
    let hfl : HostsFileLine :=
      { LineType := ADDRESS, Address := ip, Hostnames := [hostname],
        Comment := comment, IsCommented := false }
    let lines1 := lines ++ [hfl]
    (((lines1.length - 1 : Nat), some hfl, none), lines1)
  else ((-1, none, some (GoErr.cannotParseIP ipRaw)), lines)

/-- The hostname-detach loop inside `AddHost` (lines 319–332 of
`libhosty.go`).  Go's `range` iterates over the hostname slice captured
at loop entry; that slice shares its backing array with the record's
live list, so an in-place removal (`append(s[:i], s[i+1:]...)`) shifts
the values the loop still has to visit.  `arr` is the captured backing
array contents, `k` the loop index and `fuel` the number of iterations
left (the captured length).  On a value equal to `hostname` the body
re-reads record `idx`: it removes position `k` from the record's current
list when that list has more than one entry (panicking, `none`, when `k`
is out of its range), then re-reads the list and removes the whole row
when at most one hostname is left.  A read of record `idx` after the row
was removed and the document became too short is a panic (`none`). -/
def detachFrom (hostname : String) (idx : Nat) :
    Nat → Nat → List String → List HostsFileLine → Option (List HostsFileLine)
  | 0, _, _, lines => some lines
  | fuel + 1, k, arr, lines =>
    match arr.get? k with
    | none => some lines
    | some hn =>
      if hn = hostname then
        match lines.get? idx with
        | none => none
        | some rec =>
          if 1 < rec.Hostnames.length then
            if k < rec.Hostnames.length then
              let cur := rec.Hostnames
              let newCur := cur.take k ++ cur.drop (k + 1)
              let lines1 := lines.set idx { rec with Hostnames := newCur }
              let arr1 := arr.take k ++ (arr.drop (k + 1)).take (cur.length - 1 - k)
                ++ arr.drop (cur.length - 1)
              let lines2 := if newCur.length ≤ 1 then removeRowCore lines1 idx else lines1
              detachFrom hostname idx fuel (k + 1) arr1 lines2
            else none
          else
            let lines2 := if rec.Hostnames.length ≤ 1 then removeRowCore lines idx else lines
            detachFrom hostname idx fuel (k + 1) arr lines2
      else detachFrom hostname idx fuel (k + 1) arr lines

/-- The address-scan loop of `AddHost` (lines 336–351): find the first
record whose `Address` equals the new IP, append the hostname to its
list and overwrite its comment when a non-empty comment was supplied;
return its index, the updated record and the updated document. -/
def addToExisting (ip : List Nat) (hostname comment : String) :
    List HostsFileLine → Option (Nat × HostsFileLine × List HostsFileLine)
  | [] => none
  | hfl :: rest =>
    if ipEqual hfl.Address ip then
      let hfl1 := { hfl with Hostnames := hfl.Hostnames ++ [hostname] }
      let hfl2 := if comment = "" then hfl1 else { hfl1 with Comment := comment }
      some (0, hfl2, hfl2 :: rest)
    else
      match addToExisting ip hostname comment rest with
      | some (i, r, rest1) => some (i + 1, r, hfl :: rest1)
      | none => none

/-- The brand-new `ADDRESS` record created at the end of `AddHost`
(lines 354–363): built with the parsed ip, the single hostname and the
comment, then its `Raw` field is regenerated with `lineFormatter`. -/
def newHostLine (ip : List Nat) (hostname comment : String) : HostsFileLine :=
  let hfl0 : HostsFileLine :=
    { LineType := ADDRESS, Address := ip, Hostnames := [hostname],
      Comment := comment, IsCommented := false }
  { hfl0 with Raw := lineFormatter hfl0 }

/-- The tail of `AddHost` after any detach (lines 335–372): append to an
existing record for the IP when there is one, otherwise create a brand
new `ADDRESS` record (whose `Raw` is regenerated with `lineFormatter`)
and append it. -/
def addHostTail (lines : List HostsFileLine) (ip : List Nat) (hostname comment : String) :
    (Int × Option HostsFileLine × Option GoErr) × List HostsFileLine :=
  match addToExisting ip hostname comment lines with
  | some (idx, r, lines1) => (((idx : Nat), some r, none), lines1)
  | none =>
    let hfl := newHostLine ip hostname comment
    let lines1 := lines ++ [hfl]
    (((lines1.length - 1 : Nat), some hfl, none), lines1)

/-- `AddHost` from `libhosty.go`: lowercase the hostname and parse the
IP (failing with the document untouched when invalid); when the hostname
is already present, either just update the comment (same address) or run
the detach loop (different address); then append to an existing record
for the address or create a new one.  `none` models a runtime panic. -/
def AddHost (lines : List HostsFileLine) (ipRaw fqdnRaw comment : String) :
    Option ((Int × Option HostsFileLine × Option GoErr) × List HostsFileLine) :=
  let hostname := goToLower fqdnRaw
  let ip := ParseIP ipRaw
  if ip ≠ [] then
    match LookupByHostname lines hostname with
    | some (idx, addr) =>
      if ipEqual addr ip then
        match lines.get? idx with
        | some rec =>
          let lines1 := if comment = "" then lines
            else lines.set idx { rec with Comment := comment }
          some (((idx : Nat), lines1.get? idx, none), lines1)
        | none => none
      else
        match lines.get? idx with
        | some rec =>
          match detachFrom hostname idx rec.Hostnames.length 0 rec.Hostnames lines with
          | some lines1 => some (addHostTail lines1 ip hostname comment)
          | none => none
        | none => none
    | none => some (addHostTail lines ip hostname comment)
  else some ((-1, none, some (GoErr.cannotParseIP ipRaw)), lines)

/-- `CommentByRow` from `libhosty.go`.  The guard is `row <= len(...)`,
so `row = len` passes the guard and the subsequent index expression
panics (`none`), as does any negative `row`; only `row > len` reaches
the `ErrUnknown` return. -/
def CommentByRow (lines : List HostsFileLine) (row : Int) :
    Option (Option GoErr × List HostsFileLine) :=
  if row ≤ (lines.length : Int) then
    if h : 0 ≤ row ∧ row.toNat < lines.length then
      let hfl := lines.get ⟨row.toNat, h.2⟩
      if hfl.LineType = ADDRESS then
        if hfl.IsCommented ≠ true then
          some (none, lines.set row.toNat { hfl with IsCommented := true })
        else some (some GoErr.errAlredyCommentedLine, lines)
      else some (some GoErr.errNotAnAddressLine, lines)
    else none
  else some (some GoErr.errUnknown, lines)

/-- `UncommentByRow` from `libhosty.go`: same (bugged) bounds guard as
`CommentByRow`, flipping `IsCommented` to `false`. -/
def UncommentByRow (lines : List HostsFileLine) (row : Int) :
    Option (Option GoErr × List HostsFileLine) :=
  if row ≤ (lines.length : Int) then
    if h : 0 ≤ row ∧ row.toNat < lines.length then
      let hfl := lines.get ⟨row.toNat, h.2⟩
      if hfl.LineType = ADDRESS then
        if hfl.IsCommented ≠ false then
          some (none, lines.set row.toNat { hfl with IsCommented := false })
        else some (some GoErr.errAlredyUncommentedLine, lines)
      else some (some GoErr.errNotAnAddressLine, lines)
    else none
  else some (some GoErr.errUnknown, lines)

/-- `CommentByIP` from `libhosty.go`.  Every path of the loop body ends
in `return`, so only the first record is ever examined: a non-matching
first record yields `ErrAddressNotFound` immediately, and only an empty
document reaches the `ErrUnknown` return after the loop. -/
def CommentByIP (lines : List HostsFileLine) (ip : List Nat) :
    Option GoErr × List HostsFileLine :=
  match lines with
  | [] => (some GoErr.errUnknown, [])
  | hfl :: rest =>
    if ipEqual ip hfl.Address then
      if hfl.IsCommented ≠ true then (none, { hfl with IsCommented := true } :: rest)
      else (some GoErr.errAlredyCommentedLine, hfl :: rest)
    else (some GoErr.errAddressNotFound, hfl :: rest)

/-- `CommentByAddress` from `libhosty.go`: parse the string (nil IP on
failure) and delegate to `CommentByIP`. -/
def CommentByAddress (lines : List HostsFileLine) (address : String) :
    Option GoErr × List HostsFileLine :=
  CommentByIP lines (ParseIP address)

/-- `CommentByHostname` from `libhosty.go`.  As in `CommentByIP`, the
outer loop body always returns during its first iteration: if the first
record's hostname list contains the hostname the record is toggled (or
reported already commented), otherwise `ErrHostnameNotFound` is
returned; only an empty document reaches `ErrUnknown`. -/
def CommentByHostname (lines : List HostsFileLine) (hostname : String) :
    Option GoErr × List HostsFileLine :=
  match lines with
  | [] => (some GoErr.errUnknown, [])
  | hfl :: rest =>
    if hfl.Hostnames.contains hostname then
      if hfl.IsCommented ≠ true then (none, { hfl with IsCommented := true } :: rest)
      else (some GoErr.errAlredyCommentedLine, hfl :: rest)
    else (some GoErr.errHostnameNotFound, hfl :: rest)

/-- `UncommentByIP` from `libhosty.go`.  Same first-record-only shape as
`CommentByIP`, but the non-matching branch returns
`ErrNotAnAddressLine` (not `ErrAddressNotFound`). -/
def UncommentByIP (lines : List HostsFileLine) (ip : List Nat) :
    Option GoErr × List HostsFileLine :=
  match lines with
  | [] => (some GoErr.errUnknown, [])
  | hfl :: rest =>
    if ipEqual ip hfl.Address then
      if hfl.IsCommented ≠ false then (none, { hfl with IsCommented := false } :: rest)
      else (some GoErr.errAlredyUncommentedLine, hfl :: rest)
    else (some GoErr.errNotAnAddressLine, hfl :: rest)

/-- `UncommentByAddress` from `libhosty.go`. -/
def UncommentByAddress (lines : List HostsFileLine) (address : String) :
    Option GoErr × List HostsFileLine :=
  UncommentByIP lines (ParseIP address)

/-- `UncommentByHostname` from `libhosty.go` (first-record-only, like
`CommentByHostname`). -/
def UncommentByHostname (lines : List HostsFileLine) (hostname : String) :
    Option GoErr × List HostsFileLine :=
  match lines with
  | [] => (some GoErr.errUnknown, [])
  | hfl :: rest =>
    if hfl.Hostnames.contains hostname then
      if hfl.IsCommented ≠ false then (none, { hfl with IsCommented := false } :: rest)
      else (some GoErr.errAlredyUncommentedLine, hfl :: rest)
    else (some GoErr.errHostnameNotFound, hfl :: rest)

/-- Total number of occurrences of a hostname across every record's
hostname list. -/
def countHost (hn : String) (lines : List HostsFileLine) : Nat :=
  (lines.map (fun r => r.Hostnames.count hn)).sum

/-- Applying a finite sequence of `AddHost` calls (each a triple of ip,
hostname and comment); `none` as soon as one call panics. -/
def applyAdds : List HostsFileLine → List (String × String × String) →
    Option (List HostsFileLine)
  | lines, [] => some lines
  | lines, (ip, fqdn, c) :: rest =>
    match AddHost lines ip fqdn c with
    | some (_, lines1) => applyAdds lines1 rest
    | none => none

/-- A fresh `ADDRESS` record for a dotted-quad IP and hostname list, as
`AddHost`/`AddHostRaw` build them (all other fields at their zero
values). -/
def mkAddr (ip : String) (hs : List String) : HostsFileLine :=
  { LineType := ADDRESS, Address := ParseIP ip, Hostnames := hs }

/-- What a successful `AddHost` call produces, relative to the document
`lines` it started from: the returned index points at the returned
record inside the new document, that record is the first one holding the
(lowercased) hostname and its address equals the parsed ip, the hostname
now occurs exactly once in the whole document, no other hostname gained
occurrences, and no record's hostname list was emptied. -/
def AddHostOutcome (hostname : String) (ip : List Nat) (lines : List HostsFileLine)
    (out : (Int × Option HostsFileLine × Option GoErr) × List HostsFileLine) : Prop :=
  ∃ L1 rec L2,
    out = (((L1.length : Int), some rec, none), L1 ++ rec :: L2) ∧
    hostname ∈ rec.Hostnames ∧
    (∀ r ∈ L1, hostname ∉ r.Hostnames) ∧
    ipEqual rec.Address ip = true ∧
    countHost hostname (L1 ++ rec :: L2) = 1 ∧
    (∀ hn, hn ≠ hostname → countHost hn (L1 ++ rec :: L2) ≤ countHost hn lines) ∧
    ((∀ r ∈ lines, r.Hostnames ≠ []) → ∀ r ∈ L1 ++ rec :: L2, r.Hostnames ≠ [])

/-- The well-formedness invariant maintained by `AddHost`: every
hostname occurs at most once across the whole document, and no record
has an empty hostname list. -/
def WFdoc (lines : List HostsFileLine) : Prop :=
  (∀ hn, countHost hn lines ≤ 1) ∧ (∀ r ∈ lines, r.Hostnames ≠ [])

/-- Setting a list position to the value it already holds is the
identity. -/
theorem set_get?_self {α : Type} : ∀ (l : List α) (i : Nat) (x : α),
    l.get? i = some x → l.set i x = l
  | [], _, _, h => by simp at h
  | a :: l, 0, x, h => by simp_all
  | a :: l, i + 1, x, h => by
    simp only [List.get?] at h
    simp [set_get?_self l i x h]

/-- The element at the append point. -/
theorem get?_append_length {α : Type} : ∀ (L1 : List α) (x : α) (L2 : List α),
    (L1 ++ x :: L2).get? L1.length = some x
  | [], _, _ => rfl
  | _ :: L1, x, L2 => get?_append_length L1 x L2

/-- Setting the position at the append point. -/
theorem set_append_length {α : Type} : ∀ (L1 : List α) (x y : α) (L2 : List α),
    (L1 ++ x :: L2).set L1.length y = L1 ++ y :: L2
  | [], _, _, _ => rfl
  | a :: L1, x, y, L2 => by
    simp only [List.cons_append, List.length_cons, List.set_cons_succ,
      set_append_length L1 x y L2]

/-- `removeRowCore` steps under a head record. -/
theorem removeRowCore_cons (a : HostsFileLine) (L : List HostsFileLine) (i : Nat) :
    removeRowCore (a :: L) (i + 1) = a :: removeRowCore L i := by
  by_cases h : i < L.length
  · rw [removeRowCore, if_pos (by simpa using h), removeRowCore, if_pos h]
    simp
  · rw [removeRowCore, if_neg (by simpa using h), removeRowCore, if_neg h]

/-- Deleting the record at the append point. -/
theorem removeRowCore_append_length : ∀ (L1 : List HostsFileLine) (x : HostsFileLine)
    (L2 : List HostsFileLine), removeRowCore (L1 ++ x :: L2) L1.length = L1 ++ L2
  | [], x, L2 => by simp [removeRowCore]
  | a :: L1, x, L2 => by
    simp only [List.cons_append, List.length_cons, removeRowCore_cons,
      removeRowCore_append_length L1 x L2]

/-- Overwriting a record and then deleting that same row is the same as
deleting the row directly. -/
theorem removeRowCore_set : ∀ (lines : List HostsFileLine) (idx : Nat) (x : HostsFileLine),
    removeRowCore (lines.set idx x) idx = removeRowCore lines idx
  | [], _, _ => rfl
  | a :: L, 0, x => by simp [removeRowCore]
  | a :: L, i + 1, x => by
    simp only [List.set_cons_succ, removeRowCore_cons, removeRowCore_set L i x]

/-- `countHost` on the empty document. -/
theorem countHost_nil (hn : String) : countHost hn [] = 0 := rfl

/-- `countHost` on a cons cell. -/
theorem countHost_cons (hn : String) (r : HostsFileLine) (l : List HostsFileLine) :
    countHost hn (r :: l) = r.Hostnames.count hn + countHost hn l := by
  simp [countHost]

/-- `countHost` over an append. -/
theorem countHost_append (hn : String) (l1 l2 : List HostsFileLine) :
    countHost hn (l1 ++ l2) = countHost hn l1 + countHost hn l2 := by
  simp [countHost]

/-- A document whose records all avoid a hostname has total count 0 for
it. -/
theorem countHost_eq_zero_of_all (hn : String) {l : List HostsFileLine}
    (h : ∀ r ∈ l, r.Hostnames.count hn = 0) : countHost hn l = 0 := by
  induction l with
  | nil => rfl
  | cons a l ih =>
    rw [countHost_cons, h a (by simp), ih fun r hr => h r (by simp [hr])]

/-- A list with exactly one occurrence of an element splits at that
occurrence. -/
theorem count_one_decomp {a : String} : ∀ {l : List String}, l.count a = 1 →
    ∃ pre post, l = pre ++ a :: post ∧ a ∉ pre ∧ a ∉ post := by
  intro l
  induction l with
  | nil => intro h; simp [List.count_nil] at h
  | cons b l ih =>
    intro h
    by_cases hab : a = b
    · subst hab
      rw [List.count_cons_self] at h
      have h0 : l.count a = 0 := by omega
      exact ⟨[], l, by simp, by simp, List.count_eq_zero.1 h0⟩
    · rw [List.count_cons_of_ne hab] at h
      obtain ⟨pre, post, hl, hpre, hpost⟩ := ih h
      exact ⟨b :: pre, post, by simp [hl], by simp [hab, hpre], hpost⟩

/-- A failed hostname lookup means no record's list contains the
hostname. -/
theorem lookup_none_all {hn : String} : ∀ {lines : List HostsFileLine},
    LookupByHostname lines hn = none → ∀ r ∈ lines, hn ∉ r.Hostnames := by
  intro lines
  induction lines with
  | nil => intro _ r hr; simp at hr
  | cons a l ih =>
    intro h r hr
    rw [LookupByHostname] at h
    by_cases hc : hn ∈ a.Hostnames
    · rw [if_pos (by simpa using hc)] at h; exact absurd h (by simp)
    · rw [if_neg (by simpa using hc)] at h
      rcases List.mem_cons.1 hr with hr | hr
      · subst hr; exact hc
      · cases hl : LookupByHostname l hn with
        | none => exact ih hl r hr
        | some p => rw [hl] at h; exact absurd h (by simp)

/-- A successful hostname lookup splits the document at the first record
whose list contains the hostname, and returns that record's index and
address. -/
theorem lookup_some_decomp {hn : String} : ∀ {lines : List HostsFileLine}
    {idx : Nat} {addr : List Nat},
    LookupByHostname lines hn = some (idx, addr) →
    ∃ L1 rec L2, lines = L1 ++ rec :: L2 ∧ idx = L1.length ∧ addr = rec.Address ∧
      hn ∈ rec.Hostnames ∧ ∀ r ∈ L1, hn ∉ r.Hostnames := by
  intro lines
  induction lines with
  | nil => intro idx addr h; simp [LookupByHostname] at h
  | cons a l ih =>
    intro idx addr h
    rw [LookupByHostname] at h
    by_cases hc : hn ∈ a.Hostnames
    · rw [if_pos (by simpa using hc)] at h
      obtain ⟨h1, h2⟩ := Prod.mk.injEq .. ▸ Option.some_inj.1 h
      exact ⟨[], a, l, by simp, by simp [← h1], h2.symm, hc, by simp⟩
    · rw [if_neg (by simpa using hc)] at h
      cases hl : LookupByHostname l hn with
      | none => rw [hl] at h; exact absurd h (by simp)
      | some p =>
        obtain ⟨i, b⟩ := p
        rw [hl] at h
        obtain ⟨h1, h2⟩ := Prod.mk.injEq .. ▸ Option.some_inj.1 h
        obtain ⟨L1, rec, L2, hdec, hidx, haddr, hcont, hclean⟩ := ih hl
        refine ⟨a :: L1, rec, L2, by simp [hdec], ?_, h2.symm ▸ haddr, hcont, ?_⟩
        · simp [← h1, hidx]
        · intro r hr
          rcases List.mem_cons.1 hr with hr | hr
          · subst hr; exact hc
          · exact hclean r hr

/-- Conversely, the lookup on a document split at the first record
containing the hostname returns that split point. -/
theorem lookup_of_decomp {hn : String} : ∀ (L1 : List HostsFileLine)
    (rec : HostsFileLine) (L2 : List HostsFileLine),
    (∀ r ∈ L1, hn ∉ r.Hostnames) → hn ∈ rec.Hostnames →
    LookupByHostname (L1 ++ rec :: L2) hn = some (L1.length, rec.Address)
  | [], rec, L2, _, hcont => by
    rw [List.nil_append, LookupByHostname, if_pos (by simpa using hcont)]
    simp
  | a :: L1, rec, L2, hclean, hcont => by
    rw [List.cons_append, LookupByHostname,
      if_neg (by simpa using hclean a (by simp)),
      lookup_of_decomp L1 rec L2 (fun r hr => hclean r (by simp [hr])) hcont]
    simp

/-- A zero total count means a zero count in every record. -/
theorem countHost_zero_all {hn : String} : ∀ {l : List HostsFileLine},
    countHost hn l = 0 → ∀ r ∈ l, r.Hostnames.count hn = 0 := by
  intro l
  induction l with
  | nil => intro _ r hr; simp at hr
  | cons a l ih =>
    intro h r hr
    rw [countHost_cons] at h
    rcases List.mem_cons.1 hr with hr | hr
    · subst hr; omega
    · exact ih (by omega) r hr

/-- `net.IP.Equal` is reflexive. -/
theorem ipEqual_refl (a : List Nat) : ipEqual a a = true := by
  simp [ipEqual]

/-- When the address scan fails, no record's address equals the ip. -/
theorem addToExisting_none {ip : List Nat} {hostname comment : String} :
    ∀ {lines : List HostsFileLine}, addToExisting ip hostname comment lines = none →
    ∀ r ∈ lines, ipEqual r.Address ip = false := by
  intro lines
  induction lines with
  | nil => intro _ r hr; simp at hr
  | cons a l ih =>
    intro h r hr
    rw [addToExisting] at h
    cases hc : ipEqual a.Address ip with
    | true => simp [hc] at h
    | false =>
      simp only [hc, Bool.false_eq_true, if_false] at h
      rcases List.mem_cons.1 hr with hr | hr
      · subst hr; exact hc
      · cases hi : addToExisting ip hostname comment l with
        | none => exact ih hi r hr
        | some p => rw [hi] at h; exact absurd h (by simp)

/-- When the address scan succeeds, it splits the document at the first
record whose address equals the ip, appends the hostname to that
record's list (and possibly overwrites its comment), leaving everything
else in place. -/
theorem addToExisting_some {ip : List Nat} {hostname comment : String} :
    ∀ {lines : List HostsFileLine} {i : Nat} {r : HostsFileLine}
      {lines1 : List HostsFileLine},
    addToExisting ip hostname comment lines = some (i, r, lines1) →
    ∃ M1 s M2, lines = M1 ++ s :: M2 ∧ i = M1.length ∧
      (∀ t ∈ M1, ipEqual t.Address ip = false) ∧ ipEqual s.Address ip = true ∧
      r.Hostnames = s.Hostnames ++ [hostname] ∧ r.Address = s.Address ∧
      lines1 = M1 ++ r :: M2 := by
  intro lines
  induction lines with
  | nil => intro i r lines1 h; simp [addToExisting] at h
  | cons a l ih =>
    intro i r lines1 h
    rw [addToExisting] at h
    cases hc : ipEqual a.Address ip with
    | true =>
      simp only [hc, if_true] at h
      simp only [Option.some_inj, Prod.mk.injEq] at h
      obtain ⟨h1, h2, h3⟩ := h
      refine ⟨[], a, l, by simp, by simp [← h1], by simp, hc, ?_, ?_, by simp [← h3, h2]⟩
      · rw [← h2]; by_cases hcm : comment = "" <;> simp [hcm]
      · rw [← h2]; by_cases hcm : comment = "" <;> simp [hcm]
    | false =>
      simp only [hc, Bool.false_eq_true, if_false] at h
      cases hi : addToExisting ip hostname comment l with
      | none => rw [hi] at h; exact absurd h (by simp)
      | some p =>
        obtain ⟨i', r', rest1⟩ := p
        rw [hi] at h
        simp only [Option.some_inj, Prod.mk.injEq] at h
        obtain ⟨h1, h2, h3⟩ := h
        obtain ⟨M1, s, M2, hdec, hi', hclean, hip, hhn, haddr, hrest⟩ := ih hi
        refine ⟨a :: M1, s, M2, by simp [hdec], by simp [← h1, hi'], ?_,
          hip, h2 ▸ hhn, h2 ▸ haddr, by simp [← h3, hrest, h2]⟩
        intro t ht
        rcases List.mem_cons.1 ht with ht | ht
        · subst ht; exact hc
        · exact hclean t ht

/-- The tail of `AddHost` satisfies the outcome contract whenever the
hostname does not occur anywhere in the document it starts from. -/
theorem addHostTail_spec (lines : List HostsFileLine) (ip : List Nat)
    (hostname comment : String) (hz : countHost hostname lines = 0) :
    AddHostOutcome hostname ip lines (addHostTail lines ip hostname comment) := by
  have hzr := countHost_zero_all hz
  rw [addHostTail]
  cases ha : addToExisting ip hostname comment lines with
  | some p =>
    obtain ⟨i, r, lines1⟩ := p
    obtain ⟨M1, s, M2, hdec, hi, hclean, hip, hhn, haddr, hlines1⟩ := addToExisting_some ha
    subst hdec hi hlines1
    have hM1 : ∀ t ∈ M1, t.Hostnames.count hostname = 0 :=
      fun t ht => hzr t (by simp [ht])
    have hM2 : ∀ t ∈ M2, t.Hostnames.count hostname = 0 :=
      fun t ht => hzr t (by simp [ht])
    have hs0 : s.Hostnames.count hostname = 0 := hzr s (by simp)
    refine ⟨M1, r, M2, rfl, ?_, ?_, ?_, ?_, ?_, ?_⟩
    · rw [hhn]; simp
    · intro t ht
      exact List.count_eq_zero.1 (hM1 t ht)
    · rw [haddr]; exact hip
    · rw [countHost_append, countHost_cons, countHost_eq_zero_of_all _ hM1,
        countHost_eq_zero_of_all _ hM2, hhn]
      simp [hs0]
    · intro hn hne
      rw [countHost_append, countHost_cons, countHost_append, countHost_cons, hhn,
        List.count_append]
      have : List.count hn [hostname] = 0 := by
        simp [List.count_cons, List.count_nil]
        exact fun hh => hne hh.symm
      omega
    · intro hne r' hr'
      rcases List.mem_append.1 hr' with hr' | hr'
      · exact hne r' (by simp [hr'])
      · rcases List.mem_cons.1 hr' with hr' | hr'
        · subst hr'; rw [hhn]; simp
        · exact hne r' (by simp [hr'])
  | none =>
    have hcln : ∀ t ∈ lines, hostname ∉ t.Hostnames :=
      fun t ht => List.count_eq_zero.1 (hzr t ht)
    have hhn : (newHostLine ip hostname comment).Hostnames = [hostname] := rfl
    have haddr : (newHostLine ip hostname comment).Address = ip := rfl
    refine ⟨lines, newHostLine ip hostname comment, [], ?_, ?_, hcln, ?_, ?_, ?_, ?_⟩
    · simp
    · rw [hhn]; simp
    · rw [haddr]; exact ipEqual_refl ip
    · rw [countHost_append, hz, countHost_cons, countHost_nil, hhn]
      simp
    · intro hn hne
      rw [countHost_append, countHost_cons, countHost_nil, hhn]
      have h1 : List.count hn [hostname] = 0 := by
        simp [List.count_cons, List.count_nil]
        exact fun hh => hne hh.symm
      simp [h1]
    · intro hne r' hr'
      rcases List.mem_append.1 hr' with hr' | hr'
      · exact hne r' hr'
      · rcases List.mem_cons.1 hr' with hr' | hr'
        · subst hr'; rw [hhn]; simp
        · simp at hr'

/-- When none of the values the loop still has to visit equals the
hostname, the detach loop leaves the document unchanged. -/
theorem detachFrom_no_match {hostname : String} {idx : Nat} :
    ∀ (fuel k : Nat) (arr : List String) (lines : List HostsFileLine),
    (∀ c ∈ arr.drop k, c ≠ hostname) →
    detachFrom hostname idx fuel k arr lines = some lines := by
  intro fuel
  induction fuel with
  | zero => intro k arr lines _; rfl
  | succ fuel ih =>
    intro k arr lines h
    rw [detachFrom]
    cases hg : arr.get? k with
    | none => rfl
    | some hn =>
      have hk : k < arr.length := by
        by_contra hcon
        rw [List.get?_eq_none.2 (Nat.le_of_not_lt hcon)] at hg
        exact Option.noConfusion hg
      have hdk : arr.drop k = hn :: arr.drop (k + 1) := by
        rw [List.drop_eq_getElem_cons hk]
        have hg2 := hg
        rw [List.get?_eq_getElem?, List.getElem?_eq_getElem hk] at hg2
        rw [Option.some_inj.1 hg2]
      simp only []
      rw [if_neg (h hn (by rw [hdk]; exact List.mem_cons_self _ _))]
      exact ih (k + 1) arr lines fun c hc => h c (by rw [hdk]; exact List.mem_cons_of_mem _ hc)

/-- Running the detach loop from position `k` on a captured array whose
only remaining occurrence of the hostname sits right after a clean
prefix `pre`: the loop removes that occurrence from the record's list
and, when at most one hostname would remain (captured length at most
two), removes the whole row instead. -/
theorem detachFrom_run {hostname : String} {idx : Nat} :
    ∀ (pre : List String) (k : Nat) (arr : List String) (lines : List HostsFileLine)
      (rec : HostsFileLine) (post : List String),
    lines.get? idx = some rec → rec.Hostnames = arr →
    arr.drop k = pre ++ hostname :: post →
    hostname ∉ pre → hostname ∉ post →
    detachFrom hostname idx (arr.length - k) k arr lines =
      some (if arr.length ≤ 2 then removeRowCore lines idx
        else lines.set idx { rec with Hostnames := arr.take (k + pre.length) ++ post }) := by
  intro pre
  induction pre with
  | cons p pre ih =>
    intro k arr lines rec post hrec harr hdrop hpre hpost
    have hk : k < arr.length := List.length_lt_of_drop_ne_nil (by rw [hdrop]; simp)
    have hcons : arr[k] :: arr.drop (k + 1) = p :: (pre ++ hostname :: post) := by
      rw [← List.drop_eq_getElem_cons hk, hdrop]; rfl
    rw [List.cons.injEq] at hcons
    obtain ⟨hpk, hdrop'⟩ := hcons
    have hget : arr.get? k = some p := by
      rw [List.get?_eq_getElem?, List.getElem?_eq_getElem hk, hpk]
    rw [show arr.length - k = (arr.length - (k + 1)) + 1 from by omega, detachFrom, hget]
    simp only []
    have hpne : ¬(p = hostname) := by
      intro hh; exact hpre (by simp [hh])
    rw [if_neg hpne,
      ih (k + 1) arr lines rec post hrec harr hdrop' (fun hh => hpre (by simp [hh])) hpost]
    have hlen : k + (p :: pre).length = (k + 1) + pre.length := by simp; omega
    rw [hlen]
  | nil =>
    intro k arr lines rec post hrec harr hdrop hpre hpost
    rw [List.nil_append] at hdrop
    have hk : k < arr.length := List.length_lt_of_drop_ne_nil (by rw [hdrop]; simp)
    have hcons : arr[k] :: arr.drop (k + 1) = hostname :: post := by
      rw [← List.drop_eq_getElem_cons hk, hdrop]
    rw [List.cons.injEq] at hcons
    obtain ⟨hpk, hdrop1⟩ := hcons
    have hget : arr.get? k = some hostname := by
      rw [List.get?_eq_getElem?, List.getElem?_eq_getElem hk, hpk]
    have hplen : post.length = arr.length - (k + 1) := by
      rw [← hdrop1, List.length_drop]
    have htklen : (arr.take k).length = k := by
      rw [List.length_take]; omega
    rw [show arr.length - k = (arr.length - (k + 1)) + 1 from by omega, detachFrom, hget]
    simp only []
    rw [if_true, hrec]
    simp only []
    simp only [harr]
    by_cases hn1 : 1 < arr.length
    · rw [if_pos hn1, if_pos hk, hdrop1]
      have htk : post.take (arr.length - 1 - k) = post :=
        List.take_of_length_le (by omega)
      rw [htk]
      have hnl : (arr.take k ++ post).length = arr.length - 1 := by
        rw [List.length_append, htklen]; omega
      have hclean1 : ∀ c ∈ ((arr.take k ++ post) ++ arr.drop (arr.length - 1)).drop (k + 1),
          c ≠ hostname := by
        intro c hc
        rw [List.append_assoc] at hc
        have hdropk : ((arr.take k ++ (post ++ arr.drop (arr.length - 1)))).drop k =
            post ++ arr.drop (arr.length - 1) := List.drop_left' htklen
        have hc' : c ∈ (post ++ arr.drop (arr.length - 1)).drop 1 := by
          rw [← hdropk, List.drop_drop]
          exact hc
        cases post with
        | nil =>
          have hlen1 : arr.length - 1 = k := by
            simp only [List.length_nil] at hplen; omega
          rw [hlen1, hdrop] at hc'
          simp at hc'
        | cons q post2 =>
          rw [List.cons_append, List.drop_one, List.tail_cons] at hc'
          have hge : k + 1 ≤ arr.length - 1 := by
            simp only [List.length_cons] at hplen; omega
          rcases List.mem_append.1 hc' with hc' | hc'
          · exact fun hh => hpost (hh ▸ List.mem_cons_of_mem q hc')
          · have hdd : arr.drop (arr.length - 1) =
                (q :: post2).drop (arr.length - 1 - (k + 1)) := by
              rw [show arr.length - 1 = (k + 1) + (arr.length - 1 - (k + 1)) from by omega,
                ← List.drop_drop, hdrop1]
              congr 1
              omega
            rw [hdd] at hc'
            have hmem : c ∈ q :: post2 := List.mem_of_mem_drop hc'
            exact fun hh => hpost (hh ▸ hmem)
      by_cases hsmall : arr.length ≤ 2
      · rw [if_pos (by rw [hnl]; omega), removeRowCore_set,
          detachFrom_no_match _ (k + 1) _ _ hclean1, if_pos hsmall]
      · rw [if_neg (by rw [hnl]; omega),
          detachFrom_no_match _ (k + 1) _ _ hclean1, if_neg hsmall]
        simp
    · rw [if_neg hn1, if_pos (by omega)]
      rw [show arr.length - (k + 1) = 0 from by omega, detachFrom,
        if_pos (by omega : arr.length ≤ 2)]

/-- An outcome established against an intermediate document transfers
to the original one when counts only shrank and no list was emptied. -/
theorem addHostOutcome_mono {hostname : String} {ip : List Nat}
    {lines lines2 : List HostsFileLine}
    {out : (Int × Option HostsFileLine × Option GoErr) × List HostsFileLine}
    (h : AddHostOutcome hostname ip lines2 out)
    (hcnt : ∀ hn, hn ≠ hostname → countHost hn lines2 ≤ countHost hn lines)
    (hne : (∀ r ∈ lines, r.Hostnames ≠ []) → (∀ r ∈ lines2, r.Hostnames ≠ [])) :
    AddHostOutcome hostname ip lines out := by
  obtain ⟨L1, rec, L2, h1, h2, h3, h4, h5, h6, h7⟩ := h
  exact ⟨L1, rec, L2, h1, h2, h3, h4, h5,
    fun hn hne' => (h6 hn hne').trans (hcnt hn hne'),
    fun hx => h7 (hne hx)⟩

/-- The main `AddHost` run lemma: on a document where the (lowercased)
hostname occurs at most once in total and with a parseable ip, `AddHost`
returns without panicking and its result satisfies the outcome
contract. -/
theorem addHost_run (lines : List HostsFileLine) (ipRaw fqdnRaw comment : String)
    (hip : ParseIP ipRaw ≠ [])
    (hcount : countHost (goToLower fqdnRaw) lines ≤ 1) :
    ∃ out, AddHost lines ipRaw fqdnRaw comment = some out ∧
      AddHostOutcome (goToLower fqdnRaw) (ParseIP ipRaw) lines out := by
  rw [AddHost]
  simp only []
  rw [if_pos hip]
  cases hlk : LookupByHostname lines (goToLower fqdnRaw) with
  | none =>
    simp only []
    have hz : countHost (goToLower fqdnRaw) lines = 0 := by
      apply countHost_eq_zero_of_all
      intro r hr
      exact List.count_eq_zero.2 (lookup_none_all hlk r hr)
    exact ⟨_, rfl, addHostTail_spec lines _ _ comment hz⟩
  | some p =>
    obtain ⟨idx, addr⟩ := p
    simp only []
    obtain ⟨L1, rec, L2, hdec, hidx, haddr, hmem, hclean⟩ := lookup_some_decomp hlk
    subst hidx
    subst hdec
    have hget : (L1 ++ rec :: L2).get? L1.length = some rec := get?_append_length L1 rec L2
    have hsplit : countHost (goToLower fqdnRaw) (L1 ++ rec :: L2) =
        countHost (goToLower fqdnRaw) L1 +
          (rec.Hostnames.count (goToLower fqdnRaw) +
            countHost (goToLower fqdnRaw) L2) := by
      rw [countHost_append, countHost_cons]
    have hpos : 0 < rec.Hostnames.count (goToLower fqdnRaw) :=
      List.count_pos_iff.2 hmem
    have hL1z : countHost (goToLower fqdnRaw) L1 = 0 := by omega
    have hL2z : countHost (goToLower fqdnRaw) L2 = 0 := by omega
    have hrec1 : rec.Hostnames.count (goToLower fqdnRaw) = 1 := by omega
    by_cases heq : ipEqual addr (ParseIP ipRaw) = true
    · rw [if_pos heq, hget]
      simp only []
      by_cases hcm : comment = ""
      · rw [if_pos hcm, hget]
        refine ⟨_, rfl, L1, rec, L2, rfl, hmem, hclean, haddr ▸ heq, by omega, ?_, fun h => h⟩
        intro hn _
        exact Nat.le_refl _
      · rw [if_neg hcm, set_append_length L1 rec _ L2,
          get?_append_length L1 { rec with Comment := comment } L2]
        refine ⟨_, rfl, L1, { rec with Comment := comment }, L2, rfl, hmem, hclean,
          haddr ▸ heq, ?_, ?_, ?_⟩
        · rw [countHost_append, countHost_cons]
          simp only []
          omega
        · intro hn _
          rw [countHost_append, countHost_cons, countHost_append, countHost_cons]
        · intro hx r hr
          rcases List.mem_append.1 hr with hr | hr
          · exact hx r (by simp [hr])
          · rcases List.mem_cons.1 hr with hr | hr
            · subst hr
              have := hx rec (by simp)
              simpa using this
            · exact hx r (by simp [hr])
    · rw [if_neg heq, hget]
      simp only []
      obtain ⟨pre, post, hhs, hpre, hpost⟩ := count_one_decomp hrec1
      have hdet := detachFrom_run pre 0 rec.Hostnames (L1 ++ rec :: L2) rec post hget rfl
        (by rw [List.drop_zero]; exact hhs) hpre hpost
      rw [Nat.sub_zero] at hdet
      rw [hdet]
      simp only []
      have hlen3 : rec.Hostnames.length = pre.length + 1 + post.length := by
        rw [hhs]; simp; omega
      by_cases hsm : rec.Hostnames.length ≤ 2
      · rw [if_pos hsm, removeRowCore_append_length L1 rec L2]
        have hz2 : countHost (goToLower fqdnRaw) (L1 ++ L2) = 0 := by
          rw [countHost_append]; omega
        refine ⟨_, rfl, addHostOutcome_mono (addHostTail_spec _ _ _ _ hz2) ?_ ?_⟩
        · intro hn _
          rw [countHost_append, countHost_append, countHost_cons]
          omega
        · intro hx r hr
          rcases List.mem_append.1 hr with hr | hr
          · exact hx r (by simp [hr])
          · exact hx r (by simp [hr])
      · rw [if_neg hsm]
        simp only [Nat.zero_add]
        have htake : rec.Hostnames.take pre.length = pre := by
          rw [hhs]; exact List.take_left' rfl
        rw [htake, set_append_length L1 rec _ L2]
        have hppz : (pre ++ post).count (goToLower fqdnRaw) = 0 := by
          rw [List.count_append, List.count_eq_zero.2 hpre, List.count_eq_zero.2 hpost]
        have hz2 : countHost (goToLower fqdnRaw)
            (L1 ++ { rec with Hostnames := pre ++ post } :: L2) = 0 := by
          rw [countHost_append, countHost_cons]
          simp only []
          omega
        refine ⟨_, rfl, addHostOutcome_mono (addHostTail_spec _ _ _ _ hz2) ?_ ?_⟩
        · intro hn _
          rw [countHost_append, countHost_cons, countHost_append, countHost_cons]
          simp only []
          have : (pre ++ post).count hn ≤ rec.Hostnames.count hn := by
            rw [hhs, List.count_append, List.count_append, List.count_cons]
            omega
          omega
        · intro hx r hr
          rcases List.mem_append.1 hr with hr | hr
          · exact hx r (by simp [hr])
          · rcases List.mem_cons.1 hr with hr | hr
            · subst hr
              simp only []
              intro hnil
              have hlen0 := congrArg List.length hnil
              rw [List.length_append] at hlen0
              simp only [List.length_nil] at hlen0
              omega
            · exact hx r (by simp [hr])

/-- `AddHost` never panics on a well-formed document and preserves
well-formedness. -/
theorem addHost_preserves_WF (lines : List HostsFileLine) (ipRaw fqdnRaw comment : String)
    (h : WFdoc lines) :
    ∃ out, AddHost lines ipRaw fqdnRaw comment = some out ∧ WFdoc out.2 := by
  by_cases hip : ParseIP ipRaw = []
  · refine ⟨((-1, none, some (GoErr.cannotParseIP ipRaw)), lines), ?_, h⟩
    rw [AddHost]
    simp only []
    rw [if_neg (by simp [hip])]
  · obtain ⟨out, hout, L1, rec, L2, h1, h2, h3, h4, h5, h6, h7⟩ :=
      addHost_run lines ipRaw fqdnRaw comment hip (h.1 _)
    refine ⟨out, hout, ?_, ?_⟩
    · intro hn
      rw [h1]
      simp only []
      by_cases hhn : hn = goToLower fqdnRaw
      · subst hhn; omega
      · exact (h6 hn hhn).trans (h.1 hn)
    · rw [h1]
      simp only []
      exact h7 h.2

/-- A sequence of `AddHost` calls starting from a well-formed document
ends in a well-formed document. -/
theorem applyAdds_WF : ∀ (calls : List (String × String × String))
    (lines0 lines : List HostsFileLine), WFdoc lines0 →
    applyAdds lines0 calls = some lines → WFdoc lines := by
  intro calls
  induction calls with
  | nil =>
    intro lines0 lines h happ
    rw [applyAdds] at happ
    exact (Option.some_inj.1 happ) ▸ h
  | cons c rest ih =>
    intro lines0 lines h happ
    obtain ⟨ip, fqdn, cm⟩ := c
    rw [applyAdds] at happ
    obtain ⟨out, hadd, hwf⟩ := addHost_preserves_WF lines0 ip fqdn cm h
    rw [hadd] at happ
    exact ih out.2 lines hwf happ

/-- The number of records containing a hostname is bounded by the total
number of occurrences of that hostname. -/
theorem countP_contains_le_countHost (hn : String) : ∀ (lines : List HostsFileLine),
    lines.countP (fun r => r.Hostnames.contains hn) ≤ countHost hn lines := by
  intro lines
  induction lines with
  | nil => simp [countHost]
  | cons a l ih =>
    rw [List.countP_cons, countHost_cons]
    by_cases hc : hn ∈ a.Hostnames
    · have h1 : a.Hostnames.contains hn = true := by simpa using hc
      have h2 : 0 < a.Hostnames.count hn := List.count_pos_iff.2 hc
      simp only [h1, if_pos]
      omega
    · have h1 : a.Hostnames.contains hn = false := by simpa using hc
      simp only [h1, Bool.false_eq_true, if_false]
      omega

/-- A second identical `AddHost` call on the document produced by a
successful first call returns the same index, record and document. -/
theorem addHost_stable (ipRaw fqdnRaw : String)
    (L1 L2 : List HostsFileLine) (rec : HostsFileLine)
    (hip : ParseIP ipRaw ≠ [])
    (h2 : goToLower fqdnRaw ∈ rec.Hostnames)
    (h3 : ∀ r ∈ L1, goToLower fqdnRaw ∉ r.Hostnames)
    (h4 : ipEqual rec.Address (ParseIP ipRaw) = true) :
    AddHost (L1 ++ rec :: L2) ipRaw fqdnRaw "" =
      some (((L1.length : Int), some rec, none), L1 ++ rec :: L2) := by
  rw [AddHost]
  simp only []
  rw [if_pos hip, lookup_of_decomp L1 rec L2 h3 h2]
  simp only []
  rw [if_pos h4, get?_append_length L1 rec L2]
  simp only [if_true]
  rw [get?_append_length L1 rec L2]

end Libhosty

namespace Libhosty

/-- C1: `AddHost` with a valid ip, on a document where the hostname's old
record holds the hostname plus exactly one other hostname, deletes the
old record entirely (the surviving hostname is lost) — contradicting the
detach rule, which deletes the old record only when its hostname list
becomes empty.  At the failing input, the document holds one record
`1.0.0.1 → [foo, bar]`; after `AddHost("2.0.0.2", "foo", "")` the code
leaves only the new `2.0.0.2 → [foo]` record, instead of keeping
`1.0.0.1 → [bar]`. -/
theorem c1_detach_deletes_record_with_remaining_hostname :
    (AddHost [mkAddr "1.0.0.1" ["foo", "bar"]] "2.0.0.2" "foo" "").map
        (fun r => r.2.map (fun l => (l.Address, l.Hostnames))) =
      some [(ParseIP "2.0.0.2", ["foo"])] := by
  decide

/-- C3: the comment/uncomment error conditions are not reported with
four distinct dedicated errors: `UncommentByIP` reports the
"address not found" condition with the `ErrNotAnAddressLine` value, and
`CommentByRow` at `row = len` (out of range) panics (`none`) instead of
returning an error, because its guard is `row <= len`. -/
theorem c3_wrong_error_value_and_bounds_panic :
    (UncommentByIP [mkAddr "1.0.0.1" ["a"]] (ParseIP "2.0.0.2")).1 =
        some GoErr.errNotAnAddressLine ∧
      CommentByRow [mkAddr "1.0.0.1" ["a"]] 1 = none := by
  decide

/-- C5: the By-IP and By-Hostname toggles do not scan the whole record
sequence: on a two-record document whose second record matches the key,
both `CommentByIP` and `CommentByHostname` return their "not found"
error after examining only the first record, and leave the matching
record untoggled. -/
theorem c5_lookup_stops_at_first_record :
    (CommentByIP [mkAddr "1.0.0.1" ["a"], mkAddr "2.0.0.2" ["b"]]
        (ParseIP "2.0.0.2")).1 = some GoErr.errAddressNotFound ∧
      (CommentByIP [mkAddr "1.0.0.1" ["a"], mkAddr "2.0.0.2" ["b"]]
        (ParseIP "2.0.0.2")).2 = [mkAddr "1.0.0.1" ["a"], mkAddr "2.0.0.2" ["b"]] ∧
      (CommentByHostname [mkAddr "1.0.0.1" ["a"], mkAddr "2.0.0.2" ["b"]] "b").1 =
        some GoErr.errHostnameNotFound := by
  decide

/-- C6: when the ip string does not parse, both `AddHost` and
`AddHostRaw` return index `-1`, no record and the invalid-address error,
and leave the document exactly as it was. -/
theorem c6_invalid_ip_is_pure_error (lines : List HostsFileLine) (s h c : String)
    (hs : ParseIP s = []) :
    AddHost lines s h c = some ((-1, none, some (GoErr.cannotParseIP s)), lines) ∧
      AddHostRaw lines s h c = ((-1, none, some (GoErr.cannotParseIP s)), lines) := by
  constructor
  · simp [AddHost, hs]
  · simp [AddHostRaw, hs]

/-- Witness for C6 at the concrete invalid ip string `"bogus"`. -/
theorem c6_invalid_ip_is_pure_error_witness :
    AddHost [] "bogus" "h" "" = some ((-1, none, some (GoErr.cannotParseIP "bogus")), []) ∧
      AddHostRaw [] "bogus" "h" "" = ((-1, none, some (GoErr.cannotParseIP "bogus")), []) :=
  c6_invalid_ip_is_pure_error [] "bogus" "h" "" (by decide)

/-- C8 counterexample: `RemoveRow` with the out-of-range row `-1` panics
(Go slice expression `h.HostsFileLines[:-1]`), modelled as `none` —
it does not return normally with the document unchanged. -/
theorem c8_negative_row_panics :
    RemoveRow [({ LineType := EMPTY } : HostsFileLine)] (-1) = none := by
  decide

/-- C8 (amended): for a row at or beyond the record count, `RemoveRow`
is a silent no-op, and for an in-range (non-negative) row it deletes
exactly the record at that position, preserving the relative order of
the remaining records; only a negative row panics. -/
theorem c8_remove_row_amended (L1 L2 lines2 : List HostsFileLine)
    (x : HostsFileLine) (row : Int)
    (hrow : row = (L1.length : Int)) (hlen : (lines2.length : Int) ≤ row) :
    RemoveRow (L1 ++ x :: L2) row = some (L1 ++ L2) ∧
      RemoveRow lines2 row = some lines2 := by
  subst hrow
  constructor
  · have hlt : (L1.length : Int) < ((L1 ++ x :: L2).length : Int) := by
      simp
    rw [RemoveRow, if_pos hlt, if_pos (by positivity)]
    have htn : ((L1.length : Int)).toNat = L1.length := Int.toNat_ofNat _
    rw [removeRowCore, htn, if_pos (by simp)]
    rw [List.take_left, show L1.length + 1 = ([x].length + L1.length) by simp; omega,
      show L1 ++ x :: L2 = (L1 ++ [x]) ++ L2 by simp]
    rw [List.drop_left' (by simp [Nat.add_comm])]
  · rw [RemoveRow, if_neg (by omega)]

/-- Witness for C8 at a concrete one-record document: row `1` is an
out-of-range no-op on it, and row `1` deletes the second record of a
two-record document. -/
theorem c8_remove_row_amended_witness :
    RemoveRow ([({ LineType := EMPTY } : HostsFileLine)] ++
        ({ LineType := COMMENT } : HostsFileLine) :: []) 1 =
      some ([({ LineType := EMPTY } : HostsFileLine)] ++ []) ∧
      RemoveRow [({ LineType := EMPTY } : HostsFileLine)] 1 =
        some [({ LineType := EMPTY } : HostsFileLine)] :=
  c8_remove_row_amended [{ LineType := EMPTY }] [] [{ LineType := EMPTY }]
    { LineType := COMMENT } 1 (by decide) (by decide)

/-- C10: `CommentByAddress` with an unparseable address string on a
document whose first record is not an `ADDRESS` record (nil `Address`
field) succeeds: the nil IP from the failed parse compares equal to the
record's nil address, so the first record — whatever its line type — is
marked commented and no error is returned. -/
theorem c10_nil_ip_matches_non_address_record
    (rest : List HostsFileLine) (first : HostsFileLine) (s : String)
    (hparse : ParseIP s = []) (haddr : first.Address = [])
    (hcomm : first.IsCommented = false) :
    CommentByAddress (first :: rest) s =
      (none, { first with IsCommented := true } :: rest) := by
  simp [CommentByAddress, CommentByIP, hparse, haddr, ipEqual, hcomm]

/-- Witness for C10: a document whose first record is a free-standing
comment line, with the unparseable address string `"zzz"`. -/
theorem c10_nil_ip_matches_non_address_record_witness :
    CommentByAddress [({ LineType := COMMENT, Raw := "# note" } : HostsFileLine)] "zzz" =
      (none, [{ ({ LineType := COMMENT, Raw := "# note" } : HostsFileLine) with
        IsCommented := true }]) :=
  c10_nil_ip_matches_non_address_record [] { LineType := COMMENT, Raw := "# note" }
    "zzz" (by decide) (by decide) (by decide)

/-- `String.intercalate`'s accumulator loop is a left fold. -/
theorem intercalate_go_eq (s : String) : ∀ (as : List String) (acc : String),
    String.intercalate.go acc s as = as.foldl (fun r a => r ++ s ++ a) acc := by
  intro as
  induction as with
  | nil => intro acc; rfl
  | cons a as ih =>
    intro acc
    simp only [String.intercalate.go, List.foldl_cons]
    exact ih _

/-- A common prefix of the accumulator passes through the separator
fold. -/
theorem foldl_sep_append (s x : String) : ∀ (as : List String) (y : String),
    as.foldl (fun r a => r ++ s ++ a) (x ++ y) =
      x ++ as.foldl (fun r a => r ++ s ++ a) y := by
  intro as
  induction as with
  | nil => intro y; rfl
  | cons a as ih =>
    intro y
    simp only [List.foldl_cons]
    rw [String.append_assoc x y s, String.append_assoc x (y ++ s) a, ih]

/-- Unfolding `RenderHostsFile` one record at a time: the head record's
rendering, then a single separating newline before the rendering of the
rest (and nothing at all after the last record). -/
theorem renderHostsFile_cons (l : HostsFileLine) (ls : List HostsFileLine) :
    RenderHostsFile (l :: ls) =
      lineFormatter l ++ (if ls.isEmpty then "" else "\n" ++ RenderHostsFile ls) := by
  cases ls with
  | nil => simp [RenderHostsFile, String.intercalate, String.intercalate.go]
  | cons l' ls' =>
    simp only [RenderHostsFile, List.map_cons, String.intercalate, List.isEmpty_cons,
      Bool.false_eq_true, if_false]
    rw [intercalate_go_eq, intercalate_go_eq, List.foldl_cons,
      show (lineFormatter l ++ "\n" ++ lineFormatter l') =
        ((lineFormatter l ++ "\n") ++ lineFormatter l') from rfl,
      foldl_sep_append, String.append_assoc]

/-- C9: whole-document rendering: the empty document renders to the
empty string; a non-empty document renders as the head record's
rendering followed, when more records remain, by exactly one newline and
the rendering of the rest (so no trailing newline is ever appended); and
the total newline count is `N - 1` plus whatever newlines the individual
record renderings themselves contain. -/
theorem c9_render_joins_with_interior_newlines :
    RenderHostsFile [] = "" ∧
    (∀ (l : HostsFileLine) (ls : List HostsFileLine),
      RenderHostsFile (l :: ls) =
        lineFormatter l ++ (if ls.isEmpty then "" else "\n" ++ RenderHostsFile ls)) ∧
    (∀ lines : List HostsFileLine,
      (RenderHostsFile lines).data.count '\n' =
        lines.length - 1 +
          ((lines.map (fun l => (lineFormatter l).data.count '\n')).sum)) := by
  refine ⟨rfl, renderHostsFile_cons, ?_⟩
  intro lines
  induction lines with
  | nil => rfl
  | cons l ls ih =>
    rw [renderHostsFile_cons]
    cases ls with
    | nil => simp
    | cons l' ls' =>
      simp only [List.isEmpty_cons, Bool.false_eq_true, if_false] at *
      rw [String.data_append, String.data_append, List.count_append, List.count_append,
        ih]
      simp only [List.map_cons, List.sum_cons, List.length_cons]
      have : ("\n".data.count '\n') = 1 := by decide
      rw [this]
      omega

/-- C4 counterexample: on a document whose row 0 holds an *already
commented* `ADDRESS` record, `CommentByRow 0` (which fails, changing
nothing) followed by `UncommentByRow 0` leaves `IsCommented = false`,
not the original `true` — the pair does not restore the original
value. -/
theorem c4_toggle_pair_not_symmetric_on_commented_record :
    ({ mkAddr "1.0.0.1" ["a"] with IsCommented := true } : HostsFileLine).IsCommented
        = true ∧
      ((CommentByRow [{ mkAddr "1.0.0.1" ["a"] with IsCommented := true }] 0).bind
          (fun r => UncommentByRow r.2 0)).map (fun r => r.2.map (fun l => l.IsCommented)) =
        some [false] := by
  decide

/-- C4 (amended): for a row holding an *uncommented* `ADDRESS` record,
`CommentByRow r` followed by `UncommentByRow r` succeeds and restores
the document exactly: `IsCommented` returns to its original `false` and
no other field of any record changes.  (When the record starts out
commented, the pair instead ends with `IsCommented = false`.) -/
theorem c4_toggle_pair_restores_uncommented_record
    (lines : List HostsFileLine) (r : Nat) (rec : HostsFileLine)
    (hget : lines.get? r = some rec) (htype : rec.LineType = ADDRESS)
    (hcomm : rec.IsCommented = false) :
    CommentByRow lines (r : Int) =
        some (none, lines.set r { rec with IsCommented := true }) ∧
      UncommentByRow (lines.set r { rec with IsCommented := true }) (r : Int) =
        some (none, lines) := by
  have hr : r < lines.length := by
    by_contra hcon
    rw [List.get?_eq_none.2 (Nat.le_of_not_lt hcon)] at hget
    exact Option.noConfusion hget
  have hrecget : lines.get ⟨r, hr⟩ = rec := by
    rw [← Option.some_inj, ← List.get?_eq_get hr, hget]
  constructor
  · rw [CommentByRow, if_pos (by exact_mod_cast Nat.le_of_lt hr)]
    rw [dif_pos (by constructor <;> simp [hr])]
    simp only [Int.toNat_ofNat, hrecget, htype, if_pos rfl, hcomm]
    simp
  · have hr2 : r < (lines.set r { rec with IsCommented := true }).length := by
      simpa using hr
    rw [UncommentByRow, if_pos (by simp; exact_mod_cast Nat.le_of_lt hr)]
    rw [dif_pos (by constructor <;> simp [hr])]
    have hget2 : (lines.set r { rec with IsCommented := true }).get ⟨r, hr2⟩ =
        { rec with IsCommented := true } := by
      simp
    simp only [Int.toNat_ofNat, hget2]
    have : ({ rec with IsCommented := true } : HostsFileLine).LineType = ADDRESS := htype
    rw [if_pos this]
    simp only [ne_eq, Bool.true_eq_false, not_false_iff, if_pos trivial]
    rw [List.set_set]
    have : ({ rec with IsCommented := false } : HostsFileLine) = rec := by
      cases rec; simp_all
    rw [this, set_get?_self lines r rec hget]

/-- Witness for C4 on a concrete one-record document. -/
theorem c4_toggle_pair_restores_uncommented_record_witness :
    CommentByRow [mkAddr "1.0.0.1" ["a"]] ((0 : Nat) : Int) =
        some (none, [mkAddr "1.0.0.1" ["a"]].set 0
          { mkAddr "1.0.0.1" ["a"] with IsCommented := true }) ∧
      UncommentByRow ([mkAddr "1.0.0.1" ["a"]].set 0
          { mkAddr "1.0.0.1" ["a"] with IsCommented := true }) ((0 : Nat) : Int) =
        some (none, [mkAddr "1.0.0.1" ["a"]]) :=
  c4_toggle_pair_restores_uncommented_record [mkAddr "1.0.0.1" ["a"]] 0
    (mkAddr "1.0.0.1" ["a"]) (by decide) (by decide) (by decide)

/-- C2: starting from the empty document, after any finite sequence of
`AddHost` calls every hostname is contained in at most one record's
hostname list, and no `ADDRESS` record has an empty hostname list. -/
theorem c2_addhost_sequences_invariant (calls : List (String × String × String))
    (lines : List HostsFileLine) (hn : String)
    (happ : applyAdds [] calls = some lines) :
    List.countP (fun r => r.Hostnames.contains hn) lines ≤ 1 ∧
      lines.all (fun r => !(r.LineType == ADDRESS) || !r.Hostnames.isEmpty) = true := by
  have hwf : WFdoc lines :=
    applyAdds_WF calls [] lines ⟨fun _ => by simp [countHost], by simp⟩ happ
  constructor
  · exact (countP_contains_le_countHost hn lines).trans (hwf.1 hn)
  · rw [List.all_eq_true]
    intro r hr
    have hne := hwf.2 r hr
    cases hE : r.Hostnames.isEmpty with
    | false => simp [hE]
    | true => exact absurd (List.isEmpty_iff.1 hE) hne

/-- Witness for C2 on a concrete two-call sequence that re-points the
hostname `a` from `1.0.0.1` to `2.0.0.2`. -/
theorem c2_addhost_sequences_invariant_witness :
    List.countP (fun r => r.Hostnames.contains "a")
        ((applyAdds [] [("1.0.0.1", "A", ""), ("2.0.0.2", "a", "")]).getD []) ≤ 1 ∧
      ((applyAdds [] [("1.0.0.1", "A", ""), ("2.0.0.2", "a", "")]).getD []).all
        (fun r => !(r.LineType == ADDRESS) || !r.Hostnames.isEmpty) = true :=
  c2_addhost_sequences_invariant [("1.0.0.1", "A", ""), ("2.0.0.2", "a", "")]
    ((applyAdds [] [("1.0.0.1", "A", ""), ("2.0.0.2", "a", "")]).getD []) "a" (by rfl)

/-- C7 counterexample: on a document where the hostname `h` occurs in
two records, `AddHost("1.0.0.3", "h", "")` twice is not idempotent: the
first call leaves two records, the second collapses them to one (with a
duplicated hostname), so the document after the second call differs from
the document after the first. -/
theorem c7_second_addhost_changes_document :
    (AddHost [mkAddr "1.0.0.1" ["h"], mkAddr "1.0.0.2" ["h"]] "1.0.0.3" "h" "").map
        (fun r => r.2.map (fun l => l.Hostnames)) = some [["h"], ["h"]] ∧
      ((AddHost [mkAddr "1.0.0.1" ["h"], mkAddr "1.0.0.2" ["h"]] "1.0.0.3" "h" "").bind
          (fun r => AddHost r.2 "1.0.0.3" "h" "")).map
        (fun r => r.2.map (fun l => l.Hostnames)) = some [["h", "h"]] := by
  decide

/-- C7 (amended): for a document in which the lowercased hostname
occurs at most once across all hostname lists (true of every document
built by `AddHost`, by C2), `AddHost(ip, h, "")` followed immediately by
`AddHost(ip, h, "")` is idempotent: the second call returns exactly the
same index, record and document as the first. -/
theorem c7_addhost_idempotent_amended (lines : List HostsFileLine) (ipRaw h : String)
    (hip : ParseIP ipRaw ≠ []) (hcount : countHost (goToLower h) lines ≤ 1) :
    (AddHost lines ipRaw h "").bind (fun r => AddHost r.2 ipRaw h "") =
      AddHost lines ipRaw h "" := by
  obtain ⟨out, hout, L1, rec, L2, h1, h2, h3, h4, h5, h6, h7⟩ :=
    addHost_run lines ipRaw h "" hip hcount
  rw [hout, Option.some_bind, h1]
  simp only []
  exact addHost_stable ipRaw h L1 L2 rec hip h2 h3 h4

/-- Witness for C7 starting from the empty document with ip `1.0.0.1`
and hostname `a`. -/
theorem c7_addhost_idempotent_amended_witness :
    (AddHost [] "1.0.0.1" "a" "").bind (fun r => AddHost r.2 "1.0.0.1" "a" "") =
      AddHost [] "1.0.0.1" "a" "" :=
  c7_addhost_idempotent_amended [] "1.0.0.1" "a" (by decide) (by decide)

end Libhosty
